import Mathlib

/-!
Verification development for the HuggingFaceEndpoint invocation/streaming core
(`huggingface_endpoint.py`): parameter merging (`_default_params`,
`_invocation_params`), the per-fragment stop-sequence scanner and streaming
decoder (`_stream` / `_astream`), the trailing stop-sequence trim and the
completion drivers (`_call` / `_acall`).

Python strings are modelled as `List Char`; Python dicts of keyword arguments
as ordered association lists `List (String × PVal)` with first-match lookup
and Python merge/update semantics.
-/

set_option autoImplicit false

namespace HFEndpointSpec

/-- Python strings, modelled as lists of characters. -/
abbrev Str := List Char

/-- Coerce a Lean string literal to the `Str` model. -/
def strL (s : String) : Str := s.toList

/-- `isPrefixL p t` is the Boolean test that `p` is a prefix of `t`. -/
def isPrefixL : Str → Str → Bool
  | [], _ => true
  | _ :: _, [] => false
  | a :: as, b :: bs => a = b && isPrefixL as bs

/-- Model of Python `text.index(pat)` (and of `pat in text` via `isSome`):
the least index at which `pat` occurs as a substring of `text`, if any. -/
def strIndex (pat : Str) : Str → Option Nat
  | [] => if pat = [] then some 0 else none
  | c :: rest =>
    if isPrefixL pat (c :: rest) then some 0
    else (strIndex pat rest).map (fun i => i + 1)

/-- Model of Python `pat in text` (substring containment). -/
def strContains (text pat : Str) : Bool := (strIndex pat text).isSome

/-- Values stored in a keyword-argument dictionary.  The merging code never
inspects values other than the `stop` list, so numeric/float/None payloads
are carried as uninterpreted tags. -/
inductive PVal where
  | pstr : Str → PVal
  | pstrList : List Str → PVal
  | pint : Int → PVal
  | pbool : Bool → PVal
  | pnone : PVal
  | pother : String → PVal
deriving DecidableEq, Repr

/-- A Python keyword-argument dictionary: an ordered association list.
Well-formed Python dicts have no duplicate keys; lookup is first match. -/
abbrev Dict := List (String × PVal)

/-- Python `d[k]` as an option: value of the first entry with key `k`. -/
def dLookup : Dict → String → Option PVal
  | [], _ => none
  | (k1, v) :: rest, k => if k1 = k then some v else dLookup rest k

/-- First-defined choice on options (used to state lookup precedence). -/
def oFirst {α : Type} : Option α → Option α → Option α
  | some v, _ => some v
  | none, y => y

/-- Python dict merge `\x7b**a, **b\x7d`: keys of `a` in order with values
overridden by `b` where present, followed by the keys of `b` absent from
`a`, in order. -/
def dMerge (a b : Dict) : Dict :=
  (a.map (fun kv =>
    match dLookup b kv.1 with
    | some v => (kv.1, v)
    | none => kv))
  ++ b.filter (fun kv => (dLookup a kv.1).isNone)

/-- Python `d[k] = v`: replace the value at an existing key in place,
otherwise append the new binding at the end. -/
def dSet (d : Dict) (k : String) (v : PVal) : Dict :=
  if (dLookup d k).isSome then
    d.map (fun kv => if kv.1 = k then (k, v) else kv)
  else d ++ [(k, v)]

/-- Removing a key from a dict (used to model Python keyword splatting
`**params` binding the named parameter `stop` and passing the rest on). -/
def dRemove : Dict → String → Dict
  | [], _ => []
  | (k1, v) :: rest, k =>
    if k1 = k then dRemove rest k else (k1, v) :: dRemove rest k

/-- The configuration fields of `HuggingFaceEndpoint` that feed
`_default_params`, plus `model_kwargs` and the `streaming` flag.  Field
values other than `stop_sequences` are opaque to the merging logic and are
modelled as `PVal`. -/
structure HFEndpoint where
  max_new_tokens : PVal
  top_k : PVal
  top_p : PVal
  typical_p : PVal
  temperature : PVal
  repetition_penalty : PVal
  return_full_text : PVal
  truncate : PVal
  stop_sequences : List Str
  seed : PVal
  do_sample : PVal
  watermark : PVal
  model_kwargs : Dict
  streaming : Bool
deriving DecidableEq, Repr

/-- The explicit-key part of the `_default_params` dict literal, before
`**model_kwargs` is spread in. -/
def explicitDefaults (c : HFEndpoint) : Dict :=
  [("max_new_tokens", c.max_new_tokens),
   ("top_k", c.top_k),
   ("top_p", c.top_p),
   ("typical_p", c.typical_p),
   ("temperature", c.temperature),
   ("repetition_penalty", c.repetition_penalty),
   ("return_full_text", c.return_full_text),
   ("truncate", c.truncate),
   ("stop", PVal.pstrList c.stop_sequences),
   ("seed", c.seed),
   ("do_sample", c.do_sample),
   ("watermark", c.watermark)]

/-- `_default_params`: the dict literal of explicit defaults with
`**model_kwargs` spread in (later keys override). -/
def defaultParams (c : HFEndpoint) : Dict :=
  dMerge (explicitDefaults c) c.model_kwargs

/-- Read `params["stop"]` as a list of strings; `none` models the Python
exception when the key is missing or its value is not a list of strings. -/
def getStop (d : Dict) : Option (List Str) :=
  match dLookup d "stop" with
  | some (PVal.pstrList l) => some l
  | _ => none

/-- `_invocation_params(runtime_stop, **kwargs)`:
`params = \x7b**self._default_params, **kwargs\x7d` followed by
`params["stop"] = params["stop"] + (runtime_stop or [])`.
Returns `none` where Python would raise (non-list `stop`). -/
def invocationParams (c : HFEndpoint) (runtime_stop : Option (List Str))
    (kwargs : Dict) : Option Dict :=
  match getStop (dMerge (defaultParams c) kwargs) with
  | some base =>
      some (dSet (dMerge (defaultParams c) kwargs) "stop"
        (PVal.pstrList (base ++ runtime_stop.getD [])))
  | none => none

/-- The merged `stop` entry of the invocation-parameter set built for a
call, as a list of strings. -/
def mergedStop (c : HFEndpoint) (runtime_stop : Option (List Str))
    (kwargs : Dict) : Option (List Str) :=
  match invocationParams c runtime_stop kwargs with
  | some ip => getStop ip
  | none => none

/-- The per-fragment stop-sequence scan of `_stream` / `_astream`:
`stop_seq_found = None; for stop_seq in stop: if stop_seq in response:
stop_seq_found = stop_seq` — a later matching entry overwrites an earlier
one. -/
def scanStop (stops : List Str) (text : Str) : Option Str :=
  stops.foldl (fun acc s => if strContains text s then some s else acc) none

/-- Python truthiness of `stop_seq_found` in the two `if stop_seq_found:`
tests of the decoder loop: `None` and the empty string are both falsy. -/
def truthyMatch : Option Str → Option Str
  | some s => if s = [] then none else some s
  | none => none

/-- The text computed for one fragment by the decoder loop:
`response[: response.index(stop_seq_found)] if stop_seq_found else
response`. -/
def fragText (stops : List Str) (frag : Str) : Str :=
  match truthyMatch (scanStop stops frag) with
  | some s => frag.take ((strIndex s frag).getD 0)
  | none => frag

/-- What one iteration of the decoder loop does with a fragment: the chunks
yielded, the texts passed to `run_manager.on_llm_new_token` (when a run
manager is present), and whether the loop `break`s afterwards. -/
structure FragResult where
  chunks : List Str
  callbacks : List Str
  halts : Bool
deriving DecidableEq, Repr

/-- One iteration of the `_stream` / `_astream` loop on one raw fragment. -/
def processFragment (stops : List Str) (frag : Str) (hasRM : Bool) :
    FragResult :=
  { chunks := if fragText stops frag = [] then [] else [fragText stops frag]
    callbacks :=
      if fragText stops frag = [] then []
      else if hasRM then [fragText stops frag] else []
    halts := (truthyMatch (scanStop stops frag)).isSome }

/-- The chunk texts yielded by the `_stream` / `_astream` loop over a list
of raw transport fragments. -/
def streamChunks (stops : List Str) : List Str → List Str
  | [] => []
  | f :: rest =>
    (processFragment stops f true).chunks ++
      (if (processFragment stops f true).halts then []
       else streamChunks stops rest)

/-- Python `text[-k:]` for a nonnegative `k` (note `-0` is `0`, so `k = 0`
yields the whole string; `k` larger than the length also yields the whole
string). -/
def pySliceFromNeg (text : Str) (k : Nat) : Str :=
  if k = 0 then text else text.drop (text.length - k)

/-- Python `text[:-k]` for a nonnegative `k` (`k = 0` yields the empty
string; `k` larger than the length also yields the empty string). -/
def pySliceToNeg (text : Str) (k : Nat) : Str :=
  if k = 0 then [] else text.take (text.length - k)

/-- One step of the trailing trim of `_call` / `_acall`:
`if response_text[-len(stop_seq):] == stop_seq: response_text =
response_text[: -len(stop_seq)]`. -/
def trimStopSuffix (text s : Str) : Str :=
  if pySliceFromNeg text s.length = s then pySliceToNeg text s.length
  else text

/-- The trailing-trim loop of `_call` / `_acall`: each configured stop
sequence in order, applied to the progressively trimmed text. -/
def trailingTrim (text : Str) (stops : List Str) : Str :=
  stops.foldl trimStopSuffix text

/-- `completion = ""; for chunk in ...: completion += chunk.text`. -/
def concatChunks (chunks : List Str) : Str :=
  chunks.foldl (fun acc t => acc ++ t) []

/-- `_stream(prompt, stop, **kwargs)` given the raw fragments the streaming
transport returns: merge invocation parameters, then run the decoder loop
with the merged `stop` list.  `none` models a raised merge error. -/
def streamModel (c : HFEndpoint) (stop : Option (List Str)) (kwargs : Dict)
    (frags : List Str) : Option (List Str) :=
  match invocationParams c stop kwargs with
  | some ip =>
      match getStop ip with
      | some stops => some (streamChunks stops frags)
      | none => none
  | none => none

/-- `_astream(prompt, stop, **kwargs)`: the asynchronous decoder, whose loop
body is the same fragment-by-fragment computation as `_stream` (awaits do
not change the values computed). -/
def astreamModel (c : HFEndpoint) (stop : Option (List Str)) (kwargs : Dict)
    (frags : List Str) : Option (List Str) :=
  match invocationParams c stop kwargs with
  | some ip =>
      match getStop ip with
      | some stops => some (streamChunks stops frags)
      | none => none
  | none => none

/-- The parameter dict `_stream` hands to the streaming transport call
`client.text_generation(prompt, **invocation_params, stream=True)`. -/
def streamTransportParams (c : HFEndpoint) (stop : Option (List Str))
    (kwargs : Dict) : Option Dict :=
  invocationParams c stop kwargs

/-- `_call(prompt, stop, **kwargs)`: in streaming mode, delegate to
`_stream(prompt, run_manager=..., **invocation_params)` — the splat binds
the dict's `"stop"` entry to the named `stop` parameter and passes the
remaining entries as keyword arguments — and concatenate the chunk texts;
otherwise issue one request (whose complete text `response` is an input
here) and apply the trailing trim with the merged `stop` list. -/
def callModel (c : HFEndpoint) (stop : Option (List Str)) (kwargs : Dict)
    (response : Str) (frags : List Str) : Option Str :=
  match invocationParams c stop kwargs with
  | some ip =>
      if c.streaming then
        match getStop ip with
        | some s1 =>
            match streamModel c (some s1) (dRemove ip "stop") frags with
            | some chunks => some (concatChunks chunks)
            | none => none
        | none => none
      else
        match getStop ip with
        | some stops => some (trailingTrim response stops)
        | none => none
  | none => none

/-- `_acall(prompt, stop, **kwargs)`: the asynchronous driver, line for line
the same computation as `_call` on the same transport response. -/
def acallModel (c : HFEndpoint) (stop : Option (List Str)) (kwargs : Dict)
    (response : Str) (frags : List Str) : Option Str :=
  match invocationParams c stop kwargs with
  | some ip =>
      if c.streaming then
        match getStop ip with
        | some s1 =>
            match astreamModel c (some s1) (dRemove ip "stop") frags with
            | some chunks => some (concatChunks chunks)
            | none => none
        | none => none
      else
        match getStop ip with
        | some stops => some (trailingTrim response stops)
        | none => none
  | none => none

/-- The `stop` entry of the parameter dict that reaches the streaming
transport when `_call` runs in streaming mode: `_call` builds invocation
parameters, splats them into `_stream` (binding `stop`), and `_stream`
merges again before calling the transport. -/
def callStreamingTransportStop (c : HFEndpoint)
    (runtime_stop : Option (List Str)) (kwargs : Dict) :
    Option (List Str) :=
  match invocationParams c runtime_stop kwargs with
  | some ip =>
      match getStop ip with
      | some s1 =>
          match streamTransportParams c (some s1) (dRemove ip "stop") with
          | some ip2 => getStop ip2
          | none => none
      | none => none
  | none => none

/-! ### Lookup lemmas for the dict model -/

theorem oFirst_none_right {α : Type} (x : Option α) : oFirst x none = x := by
  cases x <;> rfl

theorem oFirst_idem_left {α : Type} (x y : Option α) :
    oFirst (oFirst x y) y = oFirst x y := by
  cases x <;> cases y <;> rfl

theorem dLookup_append (xs ys : Dict) (k : String) :
    dLookup (xs ++ ys) k = oFirst (dLookup xs k) (dLookup ys k) := by
  induction xs with
  | nil => simp [dLookup, oFirst]
  | cons kv rest ih =>
    obtain ⟨k1, v⟩ := kv
    by_cases h : k1 = k <;> simp [dLookup, h, oFirst, ih]

theorem dLookup_map_override (a b : Dict) (k : String) :
    dLookup (a.map (fun kv =>
      match dLookup b kv.1 with
      | some v => (kv.1, v)
      | none => kv)) k =
    match dLookup a k with
    | some v => oFirst (dLookup b k) (some v)
    | none => none := by
  induction a with
  | nil => simp [dLookup]
  | cons kv rest ih =>
    obtain ⟨k1, v1⟩ := kv
    by_cases h : k1 = k
    · subst h
      cases hb : dLookup b k1 <;> simp [dLookup, hb, oFirst]
    · cases hb : dLookup b k1 <;> simp [dLookup, hb, h, ih]

theorem dLookup_filter_notin (a b : Dict) (k : String) :
    dLookup (b.filter (fun kv => (dLookup a kv.1).isNone)) k =
    match dLookup a k with
    | some _ => none
    | none => dLookup b k := by
  induction b with
  | nil => cases dLookup a k <;> simp [dLookup]
  | cons kv rest ih =>
    obtain ⟨k1, v1⟩ := kv
    simp only [List.filter_cons]
    by_cases h : k1 = k
    · subst h
      cases ha : dLookup a k1 <;> simp [dLookup, ha, ih]
    · cases ha1 : dLookup a k1 <;> simp [dLookup, h, ha1, ih]

theorem dLookup_dMerge (a b : Dict) (k : String) :
    dLookup (dMerge a b) k = oFirst (dLookup b k) (dLookup a k) := by
  unfold dMerge
  rw [dLookup_append, dLookup_map_override, dLookup_filter_notin]
  cases dLookup a k <;> cases dLookup b k <;> simp [oFirst]

theorem dLookup_cons (k1 : String) (v1 : PVal) (rest : Dict) (k : String) :
    dLookup ((k1, v1) :: rest) k =
    if k1 = k then some v1 else dLookup rest k := rfl

theorem dLookup_setmap (d : Dict) (k : String) (v : PVal) :
    dLookup (d.map (fun kv => if kv.1 = k then (k, v) else kv)) k =
    if (dLookup d k).isSome then some v else none := by
  induction d with
  | nil => simp [dLookup]
  | cons kv rest ih =>
    obtain ⟨k1, v1⟩ := kv
    rw [List.map_cons]
    by_cases h : k1 = k
    · rw [if_pos (show ((k1, v1) : String × PVal).1 = k from h)]
      simp [dLookup_cons, h]
    · rw [if_neg (show ¬ ((k1, v1) : String × PVal).1 = k from h)]
      simp [dLookup_cons, h, ih]

theorem dLookup_setmap_other (d : Dict) (k k2 : String) (v : PVal)
    (h : k2 ≠ k) :
    dLookup (d.map (fun kv => if kv.1 = k then (k, v) else kv)) k2 =
    dLookup d k2 := by
  induction d with
  | nil => simp [dLookup]
  | cons kv rest ih =>
    obtain ⟨k1, v1⟩ := kv
    rw [List.map_cons]
    by_cases h1 : k1 = k
    · rw [if_pos (show ((k1, v1) : String × PVal).1 = k from h1)]
      have hk : ¬ k = k2 := fun e => h e.symm
      simp [dLookup_cons, hk, h1, ih]
    · rw [if_neg (show ¬ ((k1, v1) : String × PVal).1 = k from h1)]
      simp [dLookup_cons, ih]

theorem dLookup_dSet_self (d : Dict) (k : String) (v : PVal) :
    dLookup (dSet d k v) k = some v := by
  unfold dSet
  split
  · rw [dLookup_setmap]
    simp [*]
  · rw [dLookup_append]
    rename_i h
    cases hd : dLookup d k
    · simp [dLookup, oFirst]
    · rw [hd] at h
      simp at h

theorem dLookup_dSet_other (d : Dict) (k k2 : String) (v : PVal)
    (h : k2 ≠ k) :
    dLookup (dSet d k v) k2 = dLookup d k2 := by
  unfold dSet
  split
  · exact dLookup_setmap_other d k k2 v h
  · rw [dLookup_append]
    simp [dLookup, Ne.symm h, oFirst_none_right]

theorem dLookup_dRemove_self (d : Dict) (k : String) :
    dLookup (dRemove d k) k = none := by
  induction d with
  | nil => rfl
  | cons kv rest ih =>
    obtain ⟨k1, v1⟩ := kv
    by_cases h : k1 = k
    · rw [dRemove, if_pos h]
      exact ih
    · rw [dRemove, if_neg h, dLookup_cons, if_neg h]
      exact ih

theorem dLookup_dRemove_other (d : Dict) (k k2 : String) (h : k2 ≠ k) :
    dLookup (dRemove d k) k2 = dLookup d k2 := by
  induction d with
  | nil => rfl
  | cons kv rest ih =>
    obtain ⟨k1, v1⟩ := kv
    by_cases h1 : k1 = k
    · have hk : ¬ k1 = k2 := fun e => h (e.symm.trans h1)
      rw [dRemove, if_pos h1, dLookup_cons, if_neg hk]
      exact ih
    · rw [dRemove, if_neg h1, dLookup_cons, dLookup_cons]
      by_cases h2 : k1 = k2
      · rw [if_pos h2, if_pos h2]
      · rw [if_neg h2, if_neg h2]
        exact ih

/-! ### Parameter-merging lemmas -/

theorem dLookup_explicit_stop (c : HFEndpoint) :
    dLookup (explicitDefaults c) "stop" =
    some (PVal.pstrList c.stop_sequences) := by
  simp [explicitDefaults, dLookup]

theorem dLookup_defaultParams (c : HFEndpoint) (k : String) :
    dLookup (defaultParams c) k =
    oFirst (dLookup c.model_kwargs k) (dLookup (explicitDefaults c) k) :=
  dLookup_dMerge _ _ _

theorem getStop_merge_clean (c : HFEndpoint) (kwargs : Dict)
    (h1 : dLookup c.model_kwargs "stop" = none)
    (h2 : dLookup kwargs "stop" = none) :
    getStop (dMerge (defaultParams c) kwargs) =
    some c.stop_sequences := by
  unfold getStop
  rw [dLookup_dMerge, h2, dLookup_defaultParams, h1, dLookup_explicit_stop]
  rfl

theorem invocationParams_clean (c : HFEndpoint)
    (rs : Option (List Str)) (kwargs : Dict)
    (h1 : dLookup c.model_kwargs "stop" = none)
    (h2 : dLookup kwargs "stop" = none) :
    invocationParams c rs kwargs =
    some (dSet (dMerge (defaultParams c) kwargs) "stop"
      (PVal.pstrList (c.stop_sequences ++ rs.getD []))) := by
  unfold invocationParams
  rw [getStop_merge_clean c kwargs h1 h2]

theorem mergedStop_clean (c : HFEndpoint)
    (rs : Option (List Str)) (kwargs : Dict)
    (h1 : dLookup c.model_kwargs "stop" = none)
    (h2 : dLookup kwargs "stop" = none) :
    mergedStop c rs kwargs = some (c.stop_sequences ++ rs.getD []) := by
  unfold mergedStop
  rw [invocationParams_clean c rs kwargs h1 h2]
  show getStop (dSet (dMerge (defaultParams c) kwargs) "stop"
    (PVal.pstrList (c.stop_sequences ++ rs.getD []))) = _
  unfold getStop
  rw [dLookup_dSet_self]

theorem getStop_invocationParams (c : HFEndpoint)
    (rs : Option (List Str)) (kwargs : Dict) (ip : Dict)
    (h : invocationParams c rs kwargs = some ip) :
    ∃ base, getStop (dMerge (defaultParams c) kwargs) = some base ∧
      ip = dSet (dMerge (defaultParams c) kwargs) "stop"
        (PVal.pstrList (base ++ rs.getD [])) := by
  unfold invocationParams at h
  cases hg : getStop (dMerge (defaultParams c) kwargs) with
  | none => rw [hg] at h; cases h
  | some base =>
    rw [hg] at h
    exact ⟨base, rfl, (Option.some_inj.mp h).symm⟩

/-! ### Scanner lemmas -/

theorem scanFold_char (text : Str) (stops : List Str) (acc : Option Str) :
    stops.foldl (fun a s => if strContains text s then some s else a) acc =
    oFirst ((stops.filter (fun s => strContains text s)).getLast?) acc := by
  induction stops generalizing acc with
  | nil => simp [oFirst]
  | cons s l ih =>
    rw [List.foldl_cons, List.filter_cons]
    by_cases hc : strContains text s = true
    · rw [if_pos hc, if_pos hc, ih]
      cases hL : List.filter (fun s => strContains text s) l with
      | nil => simp [oFirst]
      | cons x t =>
        rw [List.getLast?_cons_cons]
        cases hM : (x :: t).getLast? with
        | none => simp at hM
        | some m => simp [oFirst]
    · rw [if_neg hc, if_neg hc, ih]

theorem scanStop_eq_getLast (stops : List Str) (text : Str) :
    scanStop stops text =
    (stops.filter (fun s => strContains text s)).getLast? := by
  unfold scanStop
  rw [scanFold_char]
  exact oFirst_none_right _

theorem scanFold_some_contains (text : Str) (s : Str) (stops : List Str) :
    ∀ acc : Option Str,
      stops.foldl (fun a t => if strContains text t then some t else a) acc =
        some s →
      acc = some s ∨ strContains text s = true := by
  induction stops with
  | nil => intro acc h; exact Or.inl h
  | cons t l ih =>
    intro acc h
    rw [List.foldl_cons] at h
    rcases ih _ h with h1 | h1
    · by_cases hc : strContains text t = true
      · rw [if_pos hc] at h1
        right
        rw [Option.some_inj.mp h1] at hc
        exact hc
      · rw [if_neg hc] at h1
        exact Or.inl h1
    · exact Or.inr h1

theorem scanStop_some_contains (stops : List Str) (text s : Str)
    (h : scanStop stops text = some s) : strContains text s = true := by
  rcases scanFold_some_contains text s stops none h with h1 | h1
  · cases h1
  · exact h1

/-! ### Trailing-trim lemmas -/

theorem trimStopSuffix_eq (text s : Str) :
    trimStopSuffix text s =
    if s.isSuffixOf text then text.take (text.length - s.length) else text := by
  by_cases hs : s = []
  · subst hs
    unfold trimStopSuffix pySliceFromNeg pySliceToNeg
    simp only [List.length_nil, if_pos rfl, List.isSuffixOf_nil_left,
      if_true, Nat.sub_zero, List.take_length]
    by_cases ht : text = []
    · rw [if_pos ht, ht]
    · rw [if_neg ht]
  · have hlen : s.length ≠ 0 := fun h0 => hs (List.length_eq_zero.mp h0)
    unfold trimStopSuffix pySliceFromNeg pySliceToNeg
    rw [if_neg hlen, if_neg hlen]
    have hcond : (text.drop (text.length - s.length) = s) ↔
        (s.isSuffixOf text = true) := by
      rw [List.isSuffixOf_iff_suffix, List.suffix_iff_eq_drop, eq_comm]
    by_cases hc : text.drop (text.length - s.length) = s
    · rw [if_pos hc, if_pos (hcond.mp hc)]
    · rw [if_neg hc, if_neg (fun hh => hc (hcond.mpr hh))]

theorem trailingTrim_eq_spec (text : Str) (stops : List Str) :
    trailingTrim text stops =
    stops.foldl (fun t s =>
      if s.isSuffixOf t then t.take (t.length - s.length) else t) text := by
  induction stops generalizing text with
  | nil => rfl
  | cons s l ih =>
    rw [trailingTrim, List.foldl_cons, List.foldl_cons, trimStopSuffix_eq]
    exact ih _

/-! ### Streaming-decoder lemmas -/

theorem getLast?_append_oFirst {α : Type} (xs ys : List α) :
    (xs ++ ys).getLast? = oFirst ys.getLast? xs.getLast? := by
  cases hys : ys.getLast? with
  | none =>
    have h0 : ys = [] := List.getLast?_eq_none_iff.mp hys
    subst h0
    simp [oFirst]
  | some m =>
    have hne : ys ≠ [] := by
      intro h0
      subst h0
      simp at hys
    rw [List.getLast?_append_of_ne_nil _ hne, hys]
    rfl

theorem scanStop_append_dup (b r : List Str) (t : Str) :
    scanStop (b ++ (b ++ r)) t = scanStop (b ++ r) t := by
  rw [scanStop_eq_getLast, scanStop_eq_getLast]
  simp only [List.filter_append]
  rw [getLast?_append_oFirst, getLast?_append_oFirst]
  exact oFirst_idem_left _ _

theorem streamChunks_congr (S1 S2 : List Str)
    (h : ∀ t, scanStop S1 t = scanStop S2 t) :
    ∀ frags, streamChunks S1 frags = streamChunks S2 frags := by
  intro frags
  induction frags with
  | nil => rfl
  | cons f rest ih =>
    have hf : fragText S1 f = fragText S2 f := by
      unfold fragText
      rw [h f]
    have hp : processFragment S1 f true = processFragment S2 f true := by
      unfold processFragment
      rw [hf, h f]
    rw [streamChunks, streamChunks, hp, ih]

/-! ### Clean-path computations for the drivers -/

theorem getStop_dSet (d : Dict) (l : List Str) :
    getStop (dSet d "stop" (PVal.pstrList l)) = some l := by
  unfold getStop
  rw [dLookup_dSet_self]

theorem streamModel_clean (c : HFEndpoint) (stopArg : Option (List Str))
    (kwargs : Dict) (frags : List Str)
    (h1 : dLookup c.model_kwargs "stop" = none)
    (h2 : dLookup kwargs "stop" = none) :
    streamModel c stopArg kwargs frags =
      some (streamChunks (c.stop_sequences ++ stopArg.getD []) frags) := by
  unfold streamModel
  rw [invocationParams_clean c stopArg kwargs h1 h2]
  show (match getStop (dSet (dMerge (defaultParams c) kwargs) "stop"
      (PVal.pstrList (c.stop_sequences ++ stopArg.getD []))) with
    | some stops => some (streamChunks stops frags)
    | none => none) = _
  rw [getStop_dSet]

theorem callModel_clean_streaming (c : HFEndpoint)
    (rs : Option (List Str)) (kwargs : Dict) (response : Str)
    (frags : List Str)
    (hs : c.streaming = true)
    (h1 : dLookup c.model_kwargs "stop" = none)
    (h2 : dLookup kwargs "stop" = none) :
    callModel c rs kwargs response frags =
      some (concatChunks (streamChunks
        (c.stop_sequences ++ (c.stop_sequences ++ rs.getD [])) frags)) := by
  unfold callModel
  rw [invocationParams_clean c rs kwargs h1 h2]
  show (if c.streaming then
      (match getStop (dSet (dMerge (defaultParams c) kwargs) "stop"
          (PVal.pstrList (c.stop_sequences ++ rs.getD []))) with
        | some s1 =>
            (match streamModel c (some s1)
                (dRemove (dSet (dMerge (defaultParams c) kwargs) "stop"
                  (PVal.pstrList (c.stop_sequences ++ rs.getD []))) "stop")
                frags with
              | some chunks => some (concatChunks chunks)
              | none => none)
        | none => none)
    else
      (match getStop (dSet (dMerge (defaultParams c) kwargs) "stop"
          (PVal.pstrList (c.stop_sequences ++ rs.getD []))) with
        | some stops => some (trailingTrim response stops)
        | none => none)) = _
  rw [hs, if_pos rfl, getStop_dSet]
  show (match streamModel c (some (c.stop_sequences ++ rs.getD []))
      (dRemove (dSet (dMerge (defaultParams c) kwargs) "stop"
        (PVal.pstrList (c.stop_sequences ++ rs.getD []))) "stop") frags with
    | some chunks => some (concatChunks chunks)
    | none => none) = _
  rw [streamModel_clean c _ _ frags h1 (dLookup_dRemove_self _ _)]
  rfl

/-! ### Concrete configurations for witnesses and counterexamples -/

/-- A concrete non-streaming configuration with one base stop sequence. -/
def cfgA : HFEndpoint :=
  { max_new_tokens := PVal.pint 512
    top_k := PVal.pnone
    top_p := PVal.pother "0.95"
    typical_p := PVal.pother "0.95"
    temperature := PVal.pother "0.8"
    repetition_penalty := PVal.pnone
    return_full_text := PVal.pbool false
    truncate := PVal.pnone
    stop_sequences := [strL "a"]
    seed := PVal.pnone
    do_sample := PVal.pbool false
    watermark := PVal.pbool false
    model_kwargs := []
    streaming := false }

/-- A concrete streaming configuration. -/
def cfgS : HFEndpoint :=
  { cfgA with stop_sequences := [strL "<STOP>"], streaming := true }

/-- A configuration whose extra parameters override an explicit default. -/
def cfgB : HFEndpoint :=
  { cfgA with
      model_kwargs := [("temperature", PVal.pint 1), ("zz", PVal.pint 5)] }

/-- Runtime overrides used by the C6 witness. -/
def kwW : Dict := [("temperature", PVal.pint 2)]

/-- The merged invocation-parameter dict of the C6 witness instance. -/
def ipW : Dict := (invocationParams cfgB none kwW).getD []

/-! ### Claim theorems -/

/-- C1, counterexample: the claim quantifies over every mapping of runtime
overrides, but an override binding the key `"stop"` replaces the
configured base stop sequences in the merge, so the merged `stop` is not
the configured base list concatenated with the (empty) runtime stop
list. -/
theorem C1_counterexample :
    mergedStop cfgA none [("stop", PVal.pstrList [strL "x"])] ≠
      some (cfgA.stop_sequences ++ []) := by
  decide

/-- C1 (amended): provided neither the configuration's extra-parameter
mapping nor the runtime overrides bind the key `"stop"`, the merged `stop`
entry of the invocation parameters equals the configuration's base stop
sequences concatenated with the runtime stop list, in that order, with no
deduplication; in particular with no runtime stop list it equals the base
stop sequences unchanged. -/
theorem C1_merged_stop_amended (c : HFEndpoint) (rs : Option (List Str))
    (kwargs : Dict)
    (h1 : dLookup c.model_kwargs "stop" = none)
    (h2 : dLookup kwargs "stop" = none) :
    mergedStop c rs kwargs = some (c.stop_sequences ++ rs.getD []) ∧
    mergedStop c none kwargs = some c.stop_sequences := by
  refine ⟨mergedStop_clean c rs kwargs h1 h2, ?_⟩
  have h := mergedStop_clean c none kwargs h1 h2
  simpa using h

/-- C1 witness: concrete instance of the amended merge property. -/
theorem C1_witness :
    dLookup cfgA.model_kwargs "stop" = none ∧
    dLookup [("temperature", PVal.pint 1)] "stop" = none ∧
    (mergedStop cfgA (some [strL "r"]) [("temperature", PVal.pint 1)] =
        some (cfgA.stop_sequences ++ (some [strL "r"]).getD []) ∧
      mergedStop cfgA none [("temperature", PVal.pint 1)] =
        some cfgA.stop_sequences) :=
  ⟨by decide, by decide,
    C1_merged_stop_amended cfgA (some [strL "r"])
      [("temperature", PVal.pint 1)] (by decide) (by decide)⟩

/-- C2, counterexample: on stop list `["foo", "bar"]` and fragment
`"xx bar yy foo zz"`, the scanner does not select `"foo"` — under the
loop's last-match-wins overwrite it selects `"bar"`, the later entry of
the list. -/
theorem C2_counterexample :
    scanStop [strL "foo", strL "bar"] (strL "xx bar yy foo zz") ≠
      some (strL "foo") := by
  decide

/-- C2 (amended): the scanner returns the last entry of the stop list, in
iteration order, that occurs as a substring of the fragment (later
entries overwrite earlier matches); on stop list `["foo", "bar"]` and
fragment `"xx bar yy foo zz"` the selected match is `"bar"`. -/
theorem C2_scanner_last_match :
    (∀ (stops : List Str) (text : Str),
      scanStop stops text =
        (stops.filter (fun s => strContains text s)).getLast?) ∧
    scanStop [strL "foo", strL "bar"] (strL "xx bar yy foo zz") =
      some (strL "bar") :=
  ⟨scanStop_eq_getLast, by decide⟩

/-- C3: when the scanner finds a (truthy) match in a fragment, the stream
emits for that fragment exactly the prefix of the fragment up to the
first occurrence of the selected stop sequence (nothing when that prefix
is empty) and terminates: no later fragment is consumed or emitted.  The
claim's example emits exactly `"The cat "` then `"sat on "`. -/
theorem C3_stream_trim_terminates (stops : List Str) (frag : Str)
    (rest : List Str) (s : Str)
    (h1 : scanStop stops frag = some s) (h2 : s ≠ []) :
    ((strIndex s frag).isSome = true ∧
      streamChunks stops (frag :: rest) =
        (if frag.take ((strIndex s frag).getD 0) = [] then []
         else [frag.take ((strIndex s frag).getD 0)])) ∧
    streamChunks [strL "<STOP>"]
        [strL "The cat ", strL "sat on <STOP> the mat"] =
      [strL "The cat ", strL "sat on "] := by
  refine ⟨⟨scanStop_some_contains stops frag s h1, ?_⟩, by decide⟩
  simp only [streamChunks, processFragment, fragText, h1, truthyMatch,
    if_neg h2, Option.isSome_some, if_true, List.append_nil]

/-- C3 witness: the stop-containing fragment of the claim's example, with
an extra trailing fragment that is not consumed. -/
theorem C3_witness :
    scanStop [strL "<STOP>"] (strL "sat on <STOP> the mat") =
      some (strL "<STOP>") ∧
    strL "<STOP>" ≠ [] ∧
    (((strIndex (strL "<STOP>") (strL "sat on <STOP> the mat")).isSome =
        true ∧
      streamChunks [strL "<STOP>"]
          (strL "sat on <STOP> the mat" :: [strL "and more"]) =
        (if (strL "sat on <STOP> the mat").take
            ((strIndex (strL "<STOP>")
              (strL "sat on <STOP> the mat")).getD 0) = [] then []
         else [(strL "sat on <STOP> the mat").take
            ((strIndex (strL "<STOP>")
              (strL "sat on <STOP> the mat")).getD 0)])) ∧
     streamChunks [strL "<STOP>"]
        [strL "The cat ", strL "sat on <STOP> the mat"] =
      [strL "The cat ", strL "sat on "]) :=
  ⟨by decide, by decide,
    C3_stream_trim_terminates [strL "<STOP>"]
      (strL "sat on <STOP> the mat") [strL "and more"] (strL "<STOP>")
      (by decide) (by decide)⟩

/-- C4: the trailing trim iterates over the stop sequences in configured
order and removes each one that is a suffix of the progressively trimmed
text, removing nothing else; `"Hello world<|end|>"` with stop sequences
`["<|end|>"]` trims to `"Hello world"`. -/
theorem C4_trailing_trim_sequential :
    (∀ (text : Str) (stops : List Str),
      trailingTrim text stops =
        stops.foldl (fun t s =>
          if s.isSuffixOf t then t.take (t.length - s.length) else t)
          text) ∧
    trailingTrim (strL "Hello world<|end|>") [strL "<|end|>"] =
      strL "Hello world" :=
  ⟨trailingTrim_eq_spec, by decide⟩

/-- C5: trailing-trim identity — a response text that does not end with
any of the configured stop sequences is returned unchanged. -/
theorem C5_trailing_trim_identity (text : Str) (stops : List Str)
    (h : ∀ s ∈ stops, ¬ s <:+ text) :
    trailingTrim text stops = text := by
  induction stops with
  | nil => rfl
  | cons s l ih =>
    have hs : trimStopSuffix text s = text := by
      rw [trimStopSuffix_eq]
      rw [if_neg (fun hsuf =>
        h s (List.mem_cons_self s l) (List.isSuffixOf_iff_suffix.mp hsuf))]
    rw [trailingTrim, List.foldl_cons, hs]
    exact ih (fun t ht => h t (List.mem_cons_of_mem _ ht))

/-- C5 witness: a concrete text ending in no configured stop sequence. -/
theorem C5_witness :
    (∀ s ∈ [strL "<|end|>"], ¬ s <:+ strL "Hello wor") ∧
    trailingTrim (strL "Hello wor") [strL "<|end|>"] = strL "Hello wor" :=
  ⟨by decide, C5_trailing_trim_identity (strL "Hello wor") [strL "<|end|>"]
    (by decide)⟩

/-- C6: in the merged invocation parameters, every key other than `stop`
is resolved with precedence runtime overrides over config extras
(`model_kwargs`) over explicit config defaults, all other keys carried
through unchanged. -/
theorem C6_override_precedence (c : HFEndpoint) (rs : Option (List Str))
    (kwargs : Dict) (ip : Dict) (k : String)
    (h : invocationParams c rs kwargs = some ip) (hk : k ≠ "stop") :
    dLookup ip k =
      oFirst (dLookup kwargs k)
        (oFirst (dLookup c.model_kwargs k)
          (dLookup (explicitDefaults c) k)) := by
  obtain ⟨base, hbase, hip⟩ := getStop_invocationParams c rs kwargs ip h
  subst hip
  rw [dLookup_dSet_other _ _ _ _ hk, dLookup_dMerge, dLookup_defaultParams]

/-- C6 witness: a key bound in all three layers resolves to the runtime
override. -/
theorem C6_witness :
    invocationParams cfgB none kwW = some ipW ∧
    ("temperature" : String) ≠ "stop" ∧
    dLookup ipW "temperature" =
      oFirst (dLookup kwW "temperature")
        (oFirst (dLookup cfgB.model_kwargs "temperature")
          (dLookup (explicitDefaults cfgB) "temperature")) :=
  ⟨by decide, by decide,
    C6_override_precedence cfgB none kwW ipW "temperature"
      (by decide) (by decide)⟩

/-- C7: a fragment whose post-trim text is empty yields no chunk and no
observer callback, and the loop still breaks exactly when the (truthy)
stop match was found. -/
theorem C7_empty_emission_skip (stops : List Str) (frag : Str)
    (rest : List Str) (hasRM : Bool)
    (h : fragText stops frag = []) :
    (processFragment stops frag hasRM).chunks = [] ∧
    (processFragment stops frag hasRM).callbacks = [] ∧
    streamChunks stops (frag :: rest) =
      (if (truthyMatch (scanStop stops frag)).isSome then []
       else streamChunks stops rest) := by
  refine ⟨?_, ?_, ?_⟩ <;> simp [processFragment, streamChunks, h]

/-- C7 witness: a stop match at offset 0 emits nothing, invokes no
callback, and terminates the stream without error. -/
theorem C7_witness :
    fragText [strL "ab"] (strL "abzz") = [] ∧
    ((processFragment [strL "ab"] (strL "abzz") true).chunks = [] ∧
     (processFragment [strL "ab"] (strL "abzz") true).callbacks = [] ∧
     streamChunks [strL "ab"] (strL "abzz" :: [strL "more"]) =
       (if (truthyMatch (scanStop [strL "ab"] (strL "abzz"))).isSome
        then [] else streamChunks [strL "ab"] [strL "more"])) :=
  ⟨by decide,
    C7_empty_emission_skip [strL "ab"] (strL "abzz") [strL "more"] true
      (by decide)⟩

/-- C8: with streaming enabled (and `stop` not bound by overrides or
config extras), the completion call returns exactly the concatenation, in
emission order with no separators, of the chunk texts produced by the
corresponding streaming decoder on the same inputs — likewise for the
non-blocking pair. -/
theorem C8_streaming_call_concat (c : HFEndpoint)
    (rs : Option (List Str)) (kwargs : Dict) (response : Str)
    (frags : List Str)
    (hs : c.streaming = true)
    (h1 : dLookup c.model_kwargs "stop" = none)
    (h2 : dLookup kwargs "stop" = none) :
    callModel c rs kwargs response frags =
      (streamModel c rs kwargs frags).map concatChunks ∧
    acallModel c rs kwargs response frags =
      (astreamModel c rs kwargs frags).map concatChunks := by
  have H : callModel c rs kwargs response frags =
      (streamModel c rs kwargs frags).map concatChunks := by
    rw [callModel_clean_streaming c rs kwargs response frags hs h1 h2,
      streamModel_clean c rs kwargs frags h1 h2, Option.map_some']
    rw [streamChunks_congr _ _
      (scanStop_append_dup c.stop_sequences (rs.getD [])) frags]
  exact ⟨H, H⟩

/-- C8 witness: a concrete streaming completion equals the concatenation
of its decoder's chunks. -/
theorem C8_witness :
    cfgS.streaming = true ∧
    dLookup cfgS.model_kwargs "stop" = none ∧
    dLookup ([] : Dict) "stop" = none ∧
    (callModel cfgS none [] [] [strL "ab", strL "cd<STOP>ef"] =
        (streamModel cfgS none [] [strL "ab", strL "cd<STOP>ef"]).map
          concatChunks ∧
      acallModel cfgS none [] [] [strL "ab", strL "cd<STOP>ef"] =
        (astreamModel cfgS none [] [strL "ab", strL "cd<STOP>ef"]).map
          concatChunks) :=
  ⟨rfl, by decide, by decide,
    C8_streaming_call_concat cfgS none [] []
      [strL "ab", strL "cd<STOP>ef"] rfl (by decide) (by decide)⟩

/-- C9: the blocking completion driver and streaming decoder and their
non-blocking counterparts compute identical externally observable results
on the same inputs and transport responses — the same returned text and
the same chunk texts in the same order. -/
theorem C9_sync_async_equiv :
    (∀ (c : HFEndpoint) (stop : Option (List Str)) (kwargs : Dict)
        (response : Str) (frags : List Str),
      acallModel c stop kwargs response frags =
        callModel c stop kwargs response frags) ∧
    (∀ (c : HFEndpoint) (stop : Option (List Str)) (kwargs : Dict)
        (frags : List Str),
      astreamModel c stop kwargs frags =
        streamModel c stop kwargs frags) :=
  ⟨fun _ _ _ _ _ => rfl, fun _ _ _ _ => rfl⟩

/-- C10: in streaming mode (with `stop` not bound by overrides or config
extras), the `stop` list that reaches the streaming transport is the
configuration's base stop sequences twice followed by the runtime stop
list — the completion driver merges once and the decoder merges again on
top of the configuration defaults. -/
theorem C10_double_merge_stop (c : HFEndpoint)
    (rs : Option (List Str)) (kwargs : Dict)
    (h1 : dLookup c.model_kwargs "stop" = none)
    (h2 : dLookup kwargs "stop" = none) :
    callStreamingTransportStop c rs kwargs =
      some (c.stop_sequences ++ c.stop_sequences ++ rs.getD []) := by
  unfold callStreamingTransportStop streamTransportParams
  rw [invocationParams_clean c rs kwargs h1 h2]
  show (match getStop (dSet (dMerge (defaultParams c) kwargs) "stop"
      (PVal.pstrList (c.stop_sequences ++ rs.getD []))) with
    | some s1 =>
        (match invocationParams c (some s1)
            (dRemove (dSet (dMerge (defaultParams c) kwargs) "stop"
              (PVal.pstrList (c.stop_sequences ++ rs.getD []))) "stop") with
          | some ip2 => getStop ip2
          | none => none)
    | none => none) = _
  rw [getStop_dSet]
  show (match invocationParams c (some (c.stop_sequences ++ rs.getD []))
      (dRemove (dSet (dMerge (defaultParams c) kwargs) "stop"
        (PVal.pstrList (c.stop_sequences ++ rs.getD []))) "stop") with
    | some ip2 => getStop ip2
    | none => none) = _
  rw [invocationParams_clean c _ _ h1 (dLookup_dRemove_self _ _)]
  show getStop (dSet _ "stop"
    (PVal.pstrList (c.stop_sequences ++
      (some (c.stop_sequences ++ rs.getD [])).getD []))) = _
  rw [getStop_dSet, List.append_assoc]
  rfl

/-- C10 witness: a concrete double-merged stop list. -/
theorem C10_witness :
    cfgS.streaming = true ∧
    dLookup cfgS.model_kwargs "stop" = none ∧
    dLookup ([] : Dict) "stop" = none ∧
    callStreamingTransportStop cfgS (some [strL "r"]) [] =
      some (cfgS.stop_sequences ++ cfgS.stop_sequences ++
        (some [strL "r"]).getD []) :=
  ⟨rfl, by decide, by decide,
    C10_double_merge_stop cfgS (some [strL "r"]) []
      (by decide) (by decide)⟩

end HFEndpointSpec
